import Mathlib

/-!
Verification of the higlass-python build script (setup.py) against its
specification.  The script is shallowly embedded: the pure helpers
(get_version, get_requirements) become Lean functions over the file
contents, and the effectful commands (NPM.run, the js_prerelease command
decorator) become pure functions over an explicit world record fixing the
filesystem snapshots, the success of each subprocess call and the process
environment; they return the list of emitted events and an Except-typed
outcome.
-/

/-! Section 1: version extraction (setup.py lines 36-41).

get_version searches the version file text with the Python regex
`^__version__\s*=\s*['"]([^'"]*)['"]` in MULTILINE mode and returns group 1.
The regex engine is specialised to this one pattern: matchVersionAt matches
the pattern at a single position; searchVersion tries position 0 and then
the position after every newline, left to right, exactly as re.search does
for a ^-anchored pattern in MULTILINE mode.  Greedy `\s*` followed by `=`
(not a whitespace char) and greedy `[^'"]*` followed by a quote class are
deterministic, so maximal munch (dropWhile/takeWhile) is faithful. -/

def isPyWhitespace (c : Char) : Bool :=
  c == ' ' || c == '\t' || c == '\n' || c == '\r' || c == '\x0b' || c == '\x0c'

def isQuote (c : Char) : Bool :=
  c == '\x27' || c == '"'

def versionLit : List Char :=
  ['_', '_', 'v', 'e', 'r', 's', 'i', 'o', 'n', '_', '_']

def dropLit : List Char → List Char → Option (List Char)
  | [], cs => some cs
  | _ :: _, [] => none
  | l :: ls, c :: cs => if c = l then dropLit ls cs else none

def matchVersionAt (cs : List Char) : Option (List Char) :=
  match dropLit versionLit cs with
  | none => none
  | some cs1 =>
    match cs1.dropWhile isPyWhitespace with
    | [] => none
    | c :: cs3 =>
      if c = '=' then
        match cs3.dropWhile isPyWhitespace with
        | [] => none
        | q :: cs5 =>
          if isQuote q then
            match cs5.dropWhile (fun d => !(isQuote d)) with
            | [] => none
            | q2 :: _ =>
              if isQuote q2 then some (cs5.takeWhile (fun d => !(isQuote d)))
              else none
          else none
      else none

def searchVersionAux : List Char → Option (List Char)
  | [] => none
  | c :: cs =>
    if c = '\n' then
      match matchVersionAt cs with
      | some g => some g
      | none => searchVersionAux cs
    else searchVersionAux cs

def searchVersion (cs : List Char) : Option (List Char) :=
  match matchVersionAt cs with
  | some g => some g
  | none => searchVersionAux cs

def get_version (text : String) : Option String :=
  (searchVersion text.data).map (fun g => String.mk g)

/-- endsWith c l holds when the last character of l is c. -/
def endsWith (c : Char) : List Char → Bool
  | [] => false
  | [d] => d == c
  | _ :: d :: ds => endsWith c (d :: ds)

/-! Section 2: requirements parsing (setup.py lines 44-50).

get_requirements splits the file content on the newline character (Python
str.split, which keeps empty fields) and keeps the lines that are nonempty
and do not start with the comment marker. -/

def splitLines : List Char → List (List Char)
  | [] => [[]]
  | c :: cs =>
    if c = '\n' then [] :: splitLines cs
    else
      match splitLines cs with
      | [] => [[c]]
      | l :: ls => (c :: l) :: ls

def startsWithHash : List Char → Bool
  | '#' :: _ => true
  | _ => false

def keepRequirement (req : List Char) : Bool :=
  !(req.isEmpty) && !(startsWithHash req)

def requirementLines (content : List Char) : List (List Char) :=
  (splitLines content).filter keepRequirement

def get_requirements (content : String) : List String :=
  (requirementLines content.data).map (fun req => String.mk req)

/-! Helper lemmas about the list combinators used by the matcher. -/

theorem dropLit_append (ls cs : List Char) : dropLit ls (ls ++ cs) = some cs := by
  induction ls with
  | nil => rfl
  | cons l ls ih => simp [dropLit, ih]

theorem dropWhile_append_all (p : Char → Bool) (l t : List Char)
    (h : ∀ c ∈ l, p c = true) :
    List.dropWhile p (l ++ t) = List.dropWhile p t := by
  induction l with
  | nil => rfl
  | cons c l ih =>
    have hc : p c = true := h c (by simp)
    simp only [List.cons_append, List.dropWhile, hc]
    exact ih (fun d hd => h d (by simp [hd]))

theorem takeWhile_append_all (p : Char → Bool) (l t : List Char)
    (h : ∀ c ∈ l, p c = true) :
    List.takeWhile p (l ++ t) = l ++ List.takeWhile p t := by
  induction l with
  | nil => rfl
  | cons c l ih =>
    have hc : p c = true := h c (by simp)
    rw [List.cons_append, List.takeWhile_cons_of_pos hc,
      ih (fun d hd => h d (by simp [hd])), List.cons_append]

theorem dropWhile_cons_false (p : Char → Bool) (c : Char) (t : List Char)
    (h : p c = false) :
    List.dropWhile p (c :: t) = c :: t :=
  List.dropWhile_cons_of_neg (by simp [h])

theorem takeWhile_cons_false (p : Char → Bool) (c : Char) (t : List Char)
    (h : p c = false) :
    List.takeWhile p (c :: t) = [] :=
  List.takeWhile_cons_of_neg (by simp [h])

/-- matchVersionAt succeeds on a well-formed version assignment placed at the
start of the input, returning exactly the characters between the quotes. -/
theorem matchVersionAt_assignment (ws1 ws2 v rest : List Char) (q : Char)
    (hws1 : ∀ c ∈ ws1, isPyWhitespace c = true)
    (hws2 : ∀ c ∈ ws2, isPyWhitespace c = true)
    (hq : isQuote q = true)
    (hv : ∀ c ∈ v, isQuote c = false) :
    matchVersionAt (versionLit ++ (ws1 ++ '=' :: (ws2 ++ q :: (v ++ q :: rest)))) = some v := by
  have hqw : isPyWhitespace q = false := by
    have hq' : q = '\x27' ∨ q = '"' := by
      simpa [isQuote] using hq
    rcases hq' with h | h <;> subst h <;> decide
  have h1 : List.dropWhile isPyWhitespace (ws1 ++ '=' :: (ws2 ++ q :: (v ++ q :: rest)))
      = '=' :: (ws2 ++ q :: (v ++ q :: rest)) := by
    rw [dropWhile_append_all _ _ _ hws1]
    exact dropWhile_cons_false _ _ _ (by decide)
  have h2 : List.dropWhile isPyWhitespace (ws2 ++ q :: (v ++ q :: rest))
      = q :: (v ++ q :: rest) := by
    rw [dropWhile_append_all _ _ _ hws2]
    exact dropWhile_cons_false _ _ _ hqw
  have hvd : ∀ c ∈ v, (fun d => !(isQuote d)) c = true := by
    intro c hc
    simp [hv c hc]
  have h3 : List.dropWhile (fun d => !(isQuote d)) (v ++ q :: rest) = q :: rest := by
    rw [dropWhile_append_all _ _ _ hvd]
    exact dropWhile_cons_false _ _ _ (by simp [hq])
  have h4 : List.takeWhile (fun d => !(isQuote d)) (v ++ q :: rest) = v := by
    rw [takeWhile_append_all _ _ _ hvd, takeWhile_cons_false _ _ _ (by simp [hq])]
    simp
  simp [matchVersionAt, dropLit_append, h1, h2, h3, h4, hq]

/-- matchVersionAt fails whenever the input does not start with an underscore. -/
theorem matchVersionAt_cons_ne (c : Char) (cs : List Char) (h : ¬ c = '_') :
    matchVersionAt (c :: cs) = none := by
  simp [matchVersionAt, versionLit, dropLit, h]

/-- searchVersionAux unfolds one step on a cons cell. -/
theorem searchVersionAux_cons (c : Char) (cs : List Char) :
    searchVersionAux (c :: cs) =
      if c = '\n' then
        match matchVersionAt cs with
        | some g => some g
        | none => searchVersionAux cs
      else searchVersionAux cs := by
  simp [searchVersionAux]

/-- searchVersionAux finds the match that sits right after the final newline of
pre, provided no character of pre is an underscore. -/
theorem searchVersionAux_append (pre B g : List Char)
    (h1 : ∀ c ∈ pre, ¬ c = '_')
    (h2 : endsWith '\n' pre = true)
    (hB : matchVersionAt B = some g) :
    searchVersionAux (pre ++ B) = some g := by
  induction pre with
  | nil => simp [endsWith] at h2
  | cons c pre ih =>
    cases pre with
    | nil =>
      have hc : c = '\n' := by simpa [endsWith] using h2
      subst hc
      rw [List.cons_append, List.nil_append, searchVersionAux_cons, if_pos rfl, hB]
    | cons d ds =>
      have h2' : endsWith '\n' (d :: ds) = true := by simpa [endsWith] using h2
      have hd : ¬ d = '_' := h1 d (by simp)
      have hrec : searchVersionAux (d :: (ds ++ B)) = some g := by
        have := ih (fun x hx => h1 x (by simp [hx])) h2'
        simpa using this
      have hnone : matchVersionAt (d :: (ds ++ B)) = none :=
        matchVersionAt_cons_ne d (ds ++ B) hd
      rw [List.cons_append, searchVersionAux_cons]
      by_cases hc : c = '\n'
      · rw [if_pos hc]
        simp only [List.cons_append, hnone]
        exact hrec
      · rw [if_neg hc]
        simpa using hrec

/-- searchVersion finds the first match when it sits at a line start and no
earlier character is an underscore. -/
theorem searchVersion_append (pre B g : List Char)
    (h1 : ∀ c ∈ pre, ¬ c = '_')
    (h2 : pre = [] ∨ endsWith '\n' pre = true)
    (hB : matchVersionAt B = some g) :
    searchVersion (pre ++ B) = some g := by
  cases pre with
  | nil => simp [searchVersion, hB]
  | cons c pre' =>
    have hc : ¬ c = '_' := h1 c (by simp)
    have hend : endsWith '\n' (c :: pre') = true := by
      rcases h2 with h | h
      · cases h
      · exact h
    have hnone : matchVersionAt (c :: (pre' ++ B)) = none :=
      matchVersionAt_cons_ne c (pre' ++ B) hc
    have haux : searchVersionAux ((c :: pre') ++ B) = some g :=
      searchVersionAux_append _ _ _ h1 hend hB
    simp only [searchVersion, List.cons_append, hnone]
    simpa using haux

/-- Claim C6: for every version file whose text contains a line assigning
__version__ to a quoted string (stated as: the text decomposes as a prefix
that ends at a line boundary and contains no underscore, followed by the
assignment), get_version returns exactly the string between the quotes; the
quote hypothesis isQuote q covers both the single- and the double-quoted
form. -/
theorem get_version_correct (text : String) (pre ws1 ws2 v rest : List Char) (q : Char)
    (htext : text.data = pre ++ (versionLit ++ (ws1 ++ '=' :: (ws2 ++ q :: (v ++ q :: rest)))))
    (hpre1 : ∀ c ∈ pre, ¬ c = '_')
    (hpre2 : pre = [] ∨ endsWith '\n' pre = true)
    (hws1 : ∀ c ∈ ws1, isPyWhitespace c = true)
    (hws2 : ∀ c ∈ ws2, isPyWhitespace c = true)
    (hq : isQuote q = true)
    (hv : ∀ c ∈ v, isQuote c = false) :
    get_version text = some (String.mk v) := by
  unfold get_version
  rw [htext]
  rw [searchVersion_append pre _ v hpre1 hpre2
    (matchVersionAt_assignment ws1 ws2 v rest q hws1 hws2 hq hv)]
  rfl

/-- Witness for C6 at a concrete double-quoted file text. -/
theorem get_version_correct_witness :
    get_version ("# comment\n__version__ = \"0.4.8\"\n") = some ("0.4.8") := by
  have h := get_version_correct ("# comment\n__version__ = \"0.4.8\"\n")
    ("# comment\n".data) ([' ']) ([' ']) ("0.4.8".data) ("\n".data) '"'
    (by decide) (by decide) (by decide) (by decide) (by decide) (by decide) (by decide)
  simpa using h

/-- Claim C7: get_requirements keeps exactly the newline-separated lines that
are nonempty and do not begin with the comment marker, in their original
order (Sublist of the split), and nothing else. -/
theorem get_requirements_correct (content : String) :
    (requirementLines content.data).Sublist (splitLines content.data)
    ∧ (∀ r ∈ requirementLines content.data, ¬ r = [] ∧ startsWithHash r = false)
    ∧ (∀ l ∈ splitLines content.data, ¬ l = [] → startsWithHash l = false →
        l ∈ requirementLines content.data)
    ∧ get_requirements content = (requirementLines content.data).map (fun req => String.mk req) := by
  refine ⟨List.filter_sublist _, ?_, ?_, rfl⟩
  · intro r hr
    have h := (List.mem_filter.mp hr).2
    have h' := h
    simp only [keepRequirement, Bool.and_eq_true, Bool.not_eq_true'] at h'
    constructor
    · intro hnil
      subst hnil
      simp [List.isEmpty] at h'
    · exact h'.2
  · intro l hl h1 h2
    refine List.mem_filter.mpr ⟨hl, ?_⟩
    simp only [keepRequirement, Bool.and_eq_true, Bool.not_eq_true']
    constructor
    · cases l with
      | nil => exact absurd rfl h1
      | cons c cs => simp [List.isEmpty]
    · exact h2

/-- Witness for C7: a concrete requirements file with a comment line, a blank
line and two dependency lines. -/
theorem get_requirements_correct_witness :
    ("jupyter".data) ∈ requirementLines (("# frontend deps\njupyter\n\nrequests\n").data) :=
  (get_requirements_correct ("# frontend deps\njupyter\n\nrequests\n")).2.2.1
    ("jupyter".data) (by decide) (by decide) (by decide)

/-! Section 3: the NPM command and the js_prerelease decorator
(setup.py lines 53-77 and 88-160).

The runs are embedded over an explicit world.  A world fixes three
filesystem snapshots: fs0 before the run, fs1 right after the npm-install
subprocess returns (whether or not it succeeded), fs2 right after the
npm-run-build subprocess returns; and fixes whether each of the three
check_call invocations succeeds, plus the process environment as an
association list.  A run yields the chronological list of observable events,
an Except-typed outcome (error = the Python exception that propagates), the
filesystem snapshot current when the run ended, and the process environment
at the end (os.environ is never written by the script, only copied). -/

inductive Call where
  | version
  | install
  | build
deriving DecidableEq

inductive NpmErr where
  | calledProcessError (c : Call)
  | osError
  | valueError (msg : String)
deriving DecidableEq

inductive Ev where
  | checkCall (c : Call) (env : List (String × String))
  | utimeTouch (path : String)
  | logNpmUnavailable
  | logWarnRebuildFailed
  | logMissingFiles (missing : List String)
  | logWarnNotAProblem
  | origCmdRun
  | updatePackageData
deriving DecidableEq

deriving instance DecidableEq for Except

structure NpmWorld where
  fs0 : String → Bool
  fs1 : String → Bool
  fs2 : String → Bool
  versionOk : Bool
  installOk : Bool
  buildOk : Bool
  environ : List (String × String)

structure RunResult where
  events : List Ev
  outcome : Except NpmErr Unit
  fsEnd : String → Bool
  environEnd : List (String × String)

/-- Paths from setup.py lines 18-25 and 93-98, relative to HERE. -/
def node_modules : String := "js/node_modules"

def targets : List String := ["higlass/static/extension.js", "higlass/static/index.js"]

def os_defpath : String := ":/bin:/usr/bin"

def envGet (env : List (String × String)) (k dflt : String) : String :=
  match env.find? (fun p => p.1 == k) with
  | some p => p.2
  | none => dflt

def envSet (env : List (String × String)) (k v : String) : List (String × String) :=
  if env.any (fun p => p.1 == k) then
    env.map (fun p => if p.1 == k then (k, v) else p)
  else env ++ [(k, v)]

/-- NPM_PATH (setup.py lines 22-25): the local .bin directory prepended with
the platform path separator to the PATH entry of the environment. -/
def NPM_PATH (environ : List (String × String)) : String :=
  "js/node_modules/.bin" ++ ":" ++ envGet environ ("PATH") os_defpath

/-- checkCallVersion models check_call of npm --version inside has_npm
(setup.py line 115): it raises exactly when the world says the version query
fails. -/
def checkCallVersion (w : NpmWorld) : Except NpmErr Unit :=
  if w.versionOk then Except.ok () else Except.error (NpmErr.calledProcessError Call.version)

/-- has_npm (setup.py lines 112-118): the bare except turns any failure of the
version query into False; the function is total and Bool-valued. -/
def has_npm (w : NpmWorld) : Bool :=
  match checkCallVersion w with
  | Except.ok _ => true
  | Except.error _ => false

/-- should_run_npm_install (setup.py lines 120-122). -/
def should_run_npm_install (w : NpmWorld) : Bool :=
  has_npm w && !(w.fs0 node_modules)

/-- buildPhase models setup.py lines 147-160: the npm-run-build subprocess,
the post-build target check and the final update_package_data call.  hasNpm
is the local variable captured at the top of NPM.run.  Note the message for
a missing target: the source (line 156) leaves the string literal
'of a widget extension' as a bare expression statement, so only the first
half of the guidance sentence is appended; and the loop raises at the first
missing target. -/
def buildPhase (w : NpmWorld) (evs : List Ev) (hasNpm : Bool) : RunResult :=
  let evs := evs ++ [Ev.checkCall Call.build w.environ]
  if w.buildOk then
    match targets.find? (fun t => !(w.fs2 t)) with
    | some t =>
      let msg := "Missing file: " ++ t
      let msg := if !hasNpm then msg ++ "\nnpm is required to build a development version " else msg
      ⟨evs, Except.error (NpmErr.valueError msg), w.fs2, w.environ⟩
    | none => ⟨evs ++ [Ev.updatePackageData], Except.ok (), w.fs2, w.environ⟩
  else ⟨evs, Except.error (NpmErr.calledProcessError Call.build), w.fs2, w.environ⟩

/-- NPM_run models NPM.run (setup.py lines 124-160).  The env dict built on
lines 132-133 (a copy of os.environ with PATH set to NPM_PATH) is bound but
never passed to any check_call on lines 142-149, so every subprocess event
carries the unmodified w.environ; should_run_npm_install invokes has_npm a
second time, hence the second version event. -/
def NPM_run (w : NpmWorld) : RunResult :=
  let hasNpm := has_npm w
  let evs : List Ev :=
    [Ev.checkCall Call.version w.environ] ++ (if hasNpm then [] else [Ev.logNpmUnavailable])
  let _env := envSet w.environ ("PATH") (NPM_PATH w.environ)
  let evs := evs ++ [Ev.checkCall Call.version w.environ]
  if should_run_npm_install w then
    let evs := evs ++ [Ev.checkCall Call.install w.environ]
    if w.installOk then
      if w.fs1 node_modules then
        buildPhase w (evs ++ [Ev.utimeTouch node_modules]) hasNpm
      else ⟨evs, Except.error NpmErr.osError, w.fs1, w.environ⟩
    else ⟨evs, Except.error (NpmErr.calledProcessError Call.install), w.fs1, w.environ⟩
  else buildPhase w evs hasNpm

/-- missingAfter r is the list comprehension of setup.py line 66 evaluated on
the filesystem as it is when the jsdeps exception is caught. -/
def missingAfter (r : RunResult) : List String :=
  targets.filter (fun t => !(r.fsEnd t))

structure DecWorld where
  npm : NpmWorld
  isRepo : Bool

/-- js_prerelease_run models DecoratedCommand.run (setup.py lines 56-76) for a
command decorated with the given strict flag: the sdist fast path, the
jsdeps pre-build, the catch-and-inspect logic and the delegation to the
original command followed by update_package_data. -/
def js_prerelease_run (strict : Bool) (w : DecWorld) : RunResult :=
  if !w.isRepo && targets.all w.npm.fs0 then
    ⟨[Ev.origCmdRun], Except.ok (), w.npm.fs0, w.npm.environ⟩
  else
    let r := NPM_run w.npm
    match r.outcome with
    | Except.ok _ =>
      ⟨r.events ++ [Ev.origCmdRun, Ev.updatePackageData], Except.ok (), r.fsEnd, r.environEnd⟩
    | Except.error e =>
      let missing := missingAfter r
      if strict || !missing.isEmpty then
        ⟨r.events ++ [Ev.logWarnRebuildFailed]
            ++ (if !missing.isEmpty then [Ev.logMissingFiles missing] else []),
          Except.error e, r.fsEnd, r.environEnd⟩
      else
        ⟨r.events ++ [Ev.logWarnNotAProblem, Ev.origCmdRun, Ev.updatePackageData],
          Except.ok (), r.fsEnd, r.environEnd⟩

/-- occursIn needle hay decides whether needle occurs contiguously in hay. -/
def occursIn (needle : List Char) : List Char → Bool
  | [] => needle.isEmpty
  | c :: cs => needle.isPrefixOf (c :: cs) || occursIn needle cs

/-- errMentions e t holds when the raised error carries a message in which the
path t occurs; non-ValueError exceptions carry no file name. -/
def errMentions (e : NpmErr) (t : String) : Bool :=
  match e with
  | NpmErr.valueError msg => occursIn t.data msg.data
  | _ => false

/-! Section 4: structural lemmas about the runs. -/

theorem has_npm_eq (w : NpmWorld) : has_npm w = w.versionOk := by
  unfold has_npm checkCallVersion
  cases w.versionOk <;> simp

theorem buildPhase_events_cases (w : NpmWorld) (evs : List Ev) (h : Bool) :
    (buildPhase w evs h).events = evs ++ [Ev.checkCall Call.build w.environ]
    ∨ (buildPhase w evs h).events
        = (evs ++ [Ev.checkCall Call.build w.environ]) ++ [Ev.updatePackageData] := by
  unfold buildPhase
  cases hb : w.buildOk
  · simp
  · rcases hf : targets.find? (fun t => !(w.fs2 t)) with _ | t <;> simp [hf]

theorem build_mem_buildPhase (w : NpmWorld) (evs : List Ev) (h : Bool) :
    Ev.checkCall Call.build w.environ ∈ (buildPhase w evs h).events := by
  rcases buildPhase_events_cases w evs h with hbe | hbe <;> rw [hbe] <;> simp

/-- Every event of an NPM.run is one of the six event shapes the command can
emit; in particular the original packaging command never runs inside it. -/
theorem NPM_run_events_mem (w : NpmWorld) (x : Ev) (hx : x ∈ (NPM_run w).events) :
    x = Ev.checkCall Call.version w.environ ∨ x = Ev.logNpmUnavailable
    ∨ x = Ev.checkCall Call.install w.environ ∨ x = Ev.utimeTouch node_modules
    ∨ x = Ev.checkCall Call.build w.environ ∨ x = Ev.updatePackageData := by
  unfold NPM_run at hx
  cases hn : has_npm w <;> rw [hn] at hx <;>
    cases hs : should_run_npm_install w <;> simp only [hs] at hx <;>
    [skip; skip; skip; skip] <;>
    first
    | (simp only [Bool.false_eq_true, if_false] at hx
       rcases buildPhase_events_cases w _ _ with hbe | hbe <;> rw [hbe] at hx <;>
         simp at hx <;> tauto)
    | (simp only [if_true] at hx
       cases hi : w.installOk <;> simp only [hi] at hx
       · simp only [Bool.false_eq_true, if_false] at hx
         simp at hx
         tauto
       · simp only [if_true] at hx
         cases h1 : w.fs1 node_modules <;> simp only [h1] at hx
         · simp only [Bool.false_eq_true, if_false] at hx
           simp at hx
           tauto
         · simp only [if_true] at hx
           rcases buildPhase_events_cases w _ _ with hbe | hbe <;> rw [hbe] at hx <;>
             simp at hx <;> tauto)

theorem origCmd_not_in_NPM_run (w : NpmWorld) : Ev.origCmdRun ∉ (NPM_run w).events := by
  intro hx
  rcases NPM_run_events_mem w _ hx with h | h | h | h | h | h <;> cases h

theorem mem_evs_buildPhase (w : NpmWorld) (evs : List Ev) (h : Bool) (x : Ev)
    (hx : x ∈ evs) : x ∈ (buildPhase w evs h).events := by
  rcases buildPhase_events_cases w evs h with hbe | hbe <;> rw [hbe] <;> simp [hx]

/-- The install subprocess event occurs in an NPM.run exactly when
should_run_npm_install decides it should. -/
theorem install_mem_NPM_run (w : NpmWorld) :
    Ev.checkCall Call.install w.environ ∈ (NPM_run w).events
      ↔ should_run_npm_install w = true := by
  constructor
  · intro hx
    cases hs : should_run_npm_install w
    · exfalso
      unfold NPM_run at hx
      simp only [hs, Bool.false_eq_true, if_false] at hx
      cases hn : has_npm w <;> rw [hn] at hx <;>
        rcases buildPhase_events_cases w _ _ with hbe | hbe <;> rw [hbe] at hx <;>
          simp at hx
    · rfl
  · intro hs
    unfold NPM_run
    simp only [hs, if_true]
    cases hi : w.installOk <;> simp only [hi, Bool.false_eq_true, if_false, if_true]
    · simp
    · cases h1 : w.fs1 node_modules <;> simp only [h1, Bool.false_eq_true, if_false, if_true]
      · simp
      · exact mem_evs_buildPhase _ _ _ _ (by simp)

/-- The build subprocess event occurs in every NPM.run that reaches the build
step: always when install is skipped, and after a successful install and
timestamp touch otherwise. -/
theorem build_mem_NPM_run (w : NpmWorld)
    (h2 : should_run_npm_install w = true → w.installOk = true ∧ w.fs1 node_modules = true) :
    Ev.checkCall Call.build w.environ ∈ (NPM_run w).events := by
  unfold NPM_run
  cases hs : should_run_npm_install w
  · simp only [Bool.false_eq_true, if_false]
    exact build_mem_buildPhase _ _ _
  · obtain ⟨hi, h1⟩ := h2 hs
    simp only [hs, hi, h1, if_true]
    exact build_mem_buildPhase _ _ _

/-- Claim C5 (amended): the install subprocess runs iff the tool is available
and the dependency directory is absent; the build subprocess runs whenever the
tool is available, provided that the install step, when it runs, succeeds and
leaves the dependency directory in place for the timestamp touch. -/
theorem npm_install_iff_build_follows (w : NpmWorld) :
    (Ev.checkCall Call.install w.environ ∈ (NPM_run w).events
      ↔ (has_npm w = true ∧ w.fs0 node_modules = false))
    ∧ (has_npm w = true →
        (should_run_npm_install w = true → w.installOk = true ∧ w.fs1 node_modules = true) →
        Ev.checkCall Call.build w.environ ∈ (NPM_run w).events) := by
  constructor
  · rw [install_mem_NPM_run]
    simp [should_run_npm_install, Bool.and_eq_true, Bool.not_eq_true']
  · intro _ h2
    exact build_mem_NPM_run w h2

def envInit : List (String × String) := [(("PATH"), ("/usr/bin"))]

/-- Witness for C5 at a world where npm is available, node_modules is absent,
and the install step succeeds. -/
theorem npm_install_iff_build_follows_witness :
    Ev.checkCall Call.build envInit ∈
      (NPM_run ⟨fun _ => false, fun s => s == node_modules, fun _ => false,
        true, true, true, envInit⟩).events :=
  (npm_install_iff_build_follows ⟨fun _ => false, fun s => s == node_modules, fun _ => false,
    true, true, true, envInit⟩).2 (by decide) (by decide)

def wC5x : NpmWorld := ⟨fun _ => false, fun _ => false, fun _ => false, true, false, true, envInit⟩

/-- Counterexample for C5 as stated: npm is available (the tool-presence check
succeeds) yet the build subprocess is never invoked, because the install
subprocess fails and its error propagates first; the event trace ends at the
install call. -/
theorem npm_build_skipped_counterexample :
    has_npm wC5x = true
    ∧ (NPM_run wC5x).outcome = Except.error (NpmErr.calledProcessError Call.install)
    ∧ (NPM_run wC5x).events = [Ev.checkCall Call.version envInit,
        Ev.checkCall Call.version envInit, Ev.checkCall Call.install envInit] := by
  refine ⟨by decide, by decide, by decide⟩

/-- Claim C8: has_npm reports True exactly when the version-query subprocess
succeeds and False on any exception; being Bool-valued and total, it never
propagates an exception to its caller. -/
theorem has_npm_total (w : NpmWorld) :
    (checkCallVersion w = Except.ok () → has_npm w = true)
    ∧ (∀ e, checkCallVersion w = Except.error e → has_npm w = false) := by
  constructor
  · intro h
    simp [has_npm, h]
  · intro e h
    simp [has_npm, h]

/-- Witness for C8 at a world whose version query succeeds. -/
theorem has_npm_total_witness :
    has_npm ⟨fun _ => false, fun _ => false, fun _ => false, true, true, true, envInit⟩ = true :=
  (has_npm_total ⟨fun _ => false, fun _ => false, fun _ => false, true, true, true, envInit⟩).1
    (by decide)

theorem find_missing_none (fs : String → Bool) (h : targets.all fs = true) :
    targets.find? (fun t => !(fs t)) = none := by
  rw [List.find?_eq_none]
  intro x hx
  simp [List.all_eq_true.mp h x hx]

theorem filter_missing_nil (fs : String → Bool) (h : targets.all fs = true) :
    targets.filter (fun t => !(fs t)) = [] := by
  rw [List.filter_eq_nil_iff]
  intro x hx
  simp [List.all_eq_true.mp h x hx]

theorem buildPhase_ok (w : NpmWorld) (evs : List Ev) (hn : Bool)
    (hb : w.buildOk = true) (h2 : targets.all w.fs2 = true) :
    buildPhase w evs hn = ⟨(evs ++ [Ev.checkCall Call.build w.environ]) ++ [Ev.updatePackageData],
      Except.ok (), w.fs2, w.environ⟩ := by
  unfold buildPhase
  simp [hb, find_missing_none w.fs2 h2]

theorem buildPhase_buildFail (w : NpmWorld) (evs : List Ev) (hn : Bool)
    (hb : w.buildOk = false) :
    buildPhase w evs hn = ⟨evs ++ [Ev.checkCall Call.build w.environ],
      Except.error (NpmErr.calledProcessError Call.build), w.fs2, w.environ⟩ := by
  unfold buildPhase
  simp [hb]

/-- Claim C9: when the project directory is not a git checkout and both target
assets exist, a decorated packaging command delegates directly to the original
command: the whole event trace is that single delegation, so the jsdeps step
never runs and package data is not refreshed. -/
theorem js_prerelease_fastpath (w : DecWorld) (strict : Bool)
    (hrepo : w.isRepo = false)
    (hts : targets.all w.npm.fs0 = true) :
    (js_prerelease_run strict w).events = [Ev.origCmdRun]
    ∧ (js_prerelease_run strict w).outcome = Except.ok () := by
  unfold js_prerelease_run
  simp [hrepo, hts]

def wC9 : DecWorld :=
  ⟨⟨fun s => s == ("higlass/static/extension.js") || s == ("higlass/static/index.js"),
    fun _ => false, fun _ => false, false, false, false, envInit⟩, false⟩

/-- Witness for C9 at a concrete non-repo world with both targets present. -/
theorem js_prerelease_fastpath_witness :
    (js_prerelease_run false wC9).events = [Ev.origCmdRun]
    ∧ (js_prerelease_run false wC9).outcome = Except.ok () :=
  js_prerelease_fastpath wC9 false (by decide) (by decide)

/-- Claim C10: whenever a decorated run ends in a re-raised exception, the
wrapped original packaging command was never executed in that run. -/
theorem js_prerelease_no_origCmd_on_raise (w : DecWorld) (strict : Bool) (e : NpmErr)
    (h : (js_prerelease_run strict w).outcome = Except.error e) :
    Ev.origCmdRun ∉ (js_prerelease_run strict w).events := by
  intro hx
  cases hfast : (!w.isRepo && targets.all w.npm.fs0)
  · rcases hro : (NPM_run w.npm).outcome with e' | u
    · simp only [js_prerelease_run, hfast, Bool.false_eq_true, if_false, hro] at h hx
      cases hcond : (strict || !(missingAfter (NPM_run w.npm)).isEmpty)
      · rw [hcond] at h
        simp at h
      · rw [hcond] at hx
        have hno := origCmd_not_in_NPM_run w.npm
        cases hm : (missingAfter (NPM_run w.npm)).isEmpty <;> rw [hm] at hx <;>
          simp [List.mem_append, hno] at hx
    · simp only [js_prerelease_run, hfast, Bool.false_eq_true, if_false, hro] at h
      simp at h
  · simp only [js_prerelease_run, hfast, if_true] at h
    simp at h

def wC10 : DecWorld :=
  ⟨⟨fun _ => false, fun _ => false, fun _ => false, false, false, false, envInit⟩, true⟩

/-- Witness for C10: a strict run in a repo whose build fails with no assets
present re-raises, and the original command is absent from its trace. -/
theorem js_prerelease_no_origCmd_on_raise_witness :
    Ev.origCmdRun ∉ (js_prerelease_run true wC10).events :=
  js_prerelease_no_origCmd_on_raise wC10 true (NpmErr.calledProcessError Call.build) (by decide)

/-- Claim C4: a non-strict decorated run in which the tool-presence check
fails and both target assets exist (before the run and after the build
subprocess) always completes without raising and still runs the original
packaging command; when the jsdeps step did fail inside a repo checkout, the
failure was swallowed with the not-a-problem log message. -/
theorem js_prerelease_nonstrict_completes (w : DecWorld)
    (hnpm : has_npm w.npm = false)
    (h0 : targets.all w.npm.fs0 = true)
    (h2 : targets.all w.npm.fs2 = true) :
    (js_prerelease_run false w).outcome = Except.ok ()
    ∧ Ev.origCmdRun ∈ (js_prerelease_run false w).events
    ∧ (∀ e, (NPM_run w.npm).outcome = Except.error e → w.isRepo = true →
        Ev.logWarnNotAProblem ∈ (js_prerelease_run false w).events) := by
  have hsr : should_run_npm_install w.npm = false := by
    simp [should_run_npm_install, hnpm]
  cases hrepo : w.isRepo
  · have hfast : (!w.isRepo && targets.all w.npm.fs0) = true := by
      simp [hrepo, h0]
    refine ⟨?_, ?_, ?_⟩
    · simp [js_prerelease_run, hfast]
    · simp [js_prerelease_run, hfast]
    · intro e _ hrep
      exact Bool.noConfusion hrep
  · have hfast : (!w.isRepo && targets.all w.npm.fs0) = false := by
      simp [hrepo]
    have hevs : NPM_run w.npm =
        buildPhase w.npm [Ev.checkCall Call.version w.npm.environ, Ev.logNpmUnavailable,
          Ev.checkCall Call.version w.npm.environ] false := by
      simp [NPM_run, hsr, hnpm]
    cases hb : w.npm.buildOk
    · have hrun : NPM_run w.npm = ⟨[Ev.checkCall Call.version w.npm.environ,
          Ev.logNpmUnavailable, Ev.checkCall Call.version w.npm.environ,
          Ev.checkCall Call.build w.npm.environ],
          Except.error (NpmErr.calledProcessError Call.build), w.npm.fs2, w.npm.environ⟩ := by
        rw [hevs, buildPhase_buildFail _ _ _ hb]
        simp
      have hmiss : missingAfter (NPM_run w.npm) = [] := by
        rw [hrun]
        exact filter_missing_nil w.npm.fs2 h2
      refine ⟨?_, ?_, ?_⟩ <;>
        simp [js_prerelease_run, hfast, hrun, missingAfter, filter_missing_nil w.npm.fs2 h2]
    · have hrun : NPM_run w.npm = ⟨[Ev.checkCall Call.version w.npm.environ,
          Ev.logNpmUnavailable, Ev.checkCall Call.version w.npm.environ,
          Ev.checkCall Call.build w.npm.environ, Ev.updatePackageData],
          Except.ok (), w.npm.fs2, w.npm.environ⟩ := by
        rw [hevs, buildPhase_ok _ _ _ hb h2]
        simp
      refine ⟨?_, ?_, ?_⟩
      · simp [js_prerelease_run, hfast, hrun]
      · simp [js_prerelease_run, hfast, hrun]
      · intro e he _
        rw [hrun] at he
        simp at he

def wC4 : DecWorld :=
  ⟨⟨fun s => s == ("higlass/static/extension.js") || s == ("higlass/static/index.js"),
    fun _ => false,
    fun s => s == ("higlass/static/extension.js") || s == ("higlass/static/index.js"),
    false, false, false, envInit⟩, true⟩

/-- Witness for C4: a repo checkout without npm, build failing, both assets
present throughout; the decorated run still succeeds and delegates. -/
theorem js_prerelease_nonstrict_completes_witness :
    (js_prerelease_run false wC4).outcome = Except.ok ()
    ∧ Ev.origCmdRun ∈ (js_prerelease_run false wC4).events :=
  ⟨(js_prerelease_nonstrict_completes wC4 (by decide) (by decide) (by decide)).1,
   (js_prerelease_nonstrict_completes wC4 (by decide) (by decide) (by decide)).2.1⟩

/-- Claim C1 (amended): whenever the jsdeps pre-build step raises and either
the strict flag is set or some target asset is missing afterward, the
decorated run re-raises exactly the original exception; the missing files are
identified in the error-level log message, not necessarily in the re-raised
exception itself. -/
theorem js_prerelease_reraises_original (w : DecWorld) (strict : Bool) (e : NpmErr)
    (hfast : (!w.isRepo && targets.all w.npm.fs0) = false)
    (herr : (NPM_run w.npm).outcome = Except.error e)
    (hcond : strict = true ∨ ¬ missingAfter (NPM_run w.npm) = []) :
    (js_prerelease_run strict w).outcome = Except.error e
    ∧ (¬ missingAfter (NPM_run w.npm) = [] →
        Ev.logMissingFiles (missingAfter (NPM_run w.npm)) ∈ (js_prerelease_run strict w).events) := by
  have hb : (strict || !(missingAfter (NPM_run w.npm)).isEmpty) = true := by
    rcases hcond with h | h
    · simp [h]
    · have hm : (missingAfter (NPM_run w.npm)).isEmpty = false := by
        cases hml : missingAfter (NPM_run w.npm) with
        | nil => exact absurd hml h
        | cons a l => rfl
      simp [hm]
  constructor
  · simp only [js_prerelease_run, hfast, Bool.false_eq_true, if_false, herr, hb, if_true]
  · intro hm
    have hm' : (missingAfter (NPM_run w.npm)).isEmpty = false := by
      cases hml : missingAfter (NPM_run w.npm) with
      | nil => exact absurd hml hm
      | cons a l => rfl
    simp only [js_prerelease_run, hfast, Bool.false_eq_true, if_false, herr, hb, if_true, hm']
    simp

def wC1 : DecWorld :=
  ⟨⟨fun s => s == node_modules, fun _ => false, fun _ => false, true, true, false, envInit⟩, true⟩

/-- Witness for C1 at a strict run whose build subprocess fails. -/
theorem js_prerelease_reraises_original_witness :
    (js_prerelease_run true wC1).outcome = Except.error (NpmErr.calledProcessError Call.build) :=
  (js_prerelease_reraises_original wC1 true (NpmErr.calledProcessError Call.build)
    (by decide) (by decide) (Or.inl rfl)).1

/-- Counterexample for C1 as stated: in this strict decorated run the jsdeps
step fails in the build subprocess and both targets are missing afterward, so
the run re-raises the original CalledProcessError — an exception that names
neither missing file; the claim that the raised error identifies the missing
file fails here. -/
theorem js_prerelease_error_nameless_counterexample :
    (js_prerelease_run true wC1).outcome = Except.error (NpmErr.calledProcessError Call.build)
    ∧ missingAfter (NPM_run wC1.npm) = targets
    ∧ errMentions (NpmErr.calledProcessError Call.build) ("higlass/static/extension.js") = false
    ∧ errMentions (NpmErr.calledProcessError Call.build) ("higlass/static/index.js") = false := by
  refine ⟨by decide, by decide, by decide, by decide⟩

def wC2 : NpmWorld :=
  ⟨fun _ => false, fun s => s == node_modules,
    fun s => s == ("higlass/static/extension.js") || s == ("higlass/static/index.js"),
    true, true, true, envInit⟩

/-- Claim C2, evaluated at a full successful run: every subprocess event
(install and build included) carries the unmodified process environment
envInit rather than the augmented copy, even though the augmented copy exists
and differs (its PATH has the local .bin directory prepended); os.environ is
unchanged at the end.  The env dict of setup.py lines 132-133 is never passed
to the check_call invocations of lines 142-149. -/
theorem npm_env_never_passed :
    (NPM_run wC2).events = [Ev.checkCall Call.version envInit,
        Ev.checkCall Call.version envInit, Ev.checkCall Call.install envInit,
        Ev.utimeTouch node_modules, Ev.checkCall Call.build envInit,
        Ev.updatePackageData]
    ∧ ¬ envSet envInit ("PATH") (NPM_PATH envInit) = envInit
    ∧ NPM_PATH envInit = ("js/node_modules/.bin:/usr/bin")
    ∧ (NPM_run wC2).environEnd = envInit := by
  refine ⟨by decide, by decide, by decide, by decide⟩

def wC3 : NpmWorld :=
  ⟨fun s => s == node_modules, fun _ => false, fun _ => false, false, true, true, envInit⟩

/-- Claim C3, evaluated at a run with the tool unavailable and both targets
absent after the build: the raised ValueError names only the first missing
target (extension.js, never index.js although it is missing too), and the
guidance text appended for the unavailable tool is truncated — it stops after
'development version ' and never contains 'of a widget extension', because
setup.py line 156 is a bare string-literal expression statement. -/
theorem npm_missing_msg_truncated :
    (NPM_run wC3).outcome = Except.error (NpmErr.valueError
      ("Missing file: higlass/static/extension.js\nnpm is required to build a development version "))
    ∧ occursIn (("of a widget extension").data)
        (("Missing file: higlass/static/extension.js\nnpm is required to build a development version ").data)
      = false
    ∧ errMentions (NpmErr.valueError
        ("Missing file: higlass/static/extension.js\nnpm is required to build a development version "))
        ("higlass/static/index.js") = false
    ∧ wC3.fs2 ("higlass/static/index.js") = false := by
  refine ⟨by decide, by decide, by decide, by decide⟩
